import Mathlib

/-!
Verification of `go-cleanarch` (`cleanarch/cleanarch.go`): a shallow
embedding of the Clean Architecture validator in Lean 4, with theorems
about layer classification (`ParseLayerMetadata`), the import decision
rule (`validateImport`), the metadata cache (`fileMetadata`) and the
walk driver (`Validate`).

Modelling conventions:
* Go strings are Lean `String`; Go `strings.Split`, `strings.Contains`,
  `strings.HasSuffix`, `strings.TrimPrefix`/`TrimSuffix` are embedded on
  the character lists (`String.data`).
* The Go map `alias : map[string]Layer` is iterated, never looked up, so
  it is embedded as an association list; a Go map has no duplicate keys,
  captured by the predicate `NodupKeys` where it matters.
* The Go map `layersHierarchy` is only looked up, so it is embedded as
  the total function it denotes, returning the zero value `0` for a
  missing key, exactly as a Go map lookup does.
* `panic(err)` on a parse failure is embedded as `Except.error`; the
  walk driver propagates it, so a parse failure aborts the whole run.
-/

namespace Cleanarch

/-- `type Layer string`. -/
abbrev Layer := String

/-- `LayerDomain Layer = "domain"`. -/
def LayerDomain : Layer := "domain"

/-- `LayerApplication Layer = "application"`. -/
def LayerApplication : Layer := "application"

/-- `LayerInfrastructure Layer = "infrastructure"`. -/
def LayerInfrastructure : Layer := "infrastructure"

/-- `LayerInterfaces Layer = "interfaces"`. -/
def LayerInterfaces : Layer := "interfaces"

/-- The Go map `layersHierarchy`, as the lookup function it denotes:
`domain ↦ 1, application ↦ 2, interfaces ↦ 3, infrastructure ↦ 4`, and the
Go zero value `0` for every key not in the map. -/
def layersHierarchy (l : Layer) : Nat :=
  if l = LayerDomain then 1
  else if l = LayerApplication then 2
  else if l = LayerInterfaces then 3
  else if l = LayerInfrastructure then 4
  else 0

/-- `LayerMetadata` from the source: module name and software layer. -/
structure LayerMetadata where
  Module : String
  Layer : Layer
deriving DecidableEq, Repr

/-- The alias table `map[string]Layer`, embedded as an association list
(the source only ranges over it). -/
abbrev AliasTable := List (String × Layer)

/-- A Go map has no duplicate keys. -/
def NodupKeys (aliases : AliasTable) : Prop :=
  (aliases.map Prod.fst).Nodup

/-- Go `strings.Split` on a one-character separator, character by
character: `splitOnChar c s.data` is the list of separator-free segments,
in order; an empty input gives the single empty segment, as in Go. -/
def splitOnChar (c : Char) : List Char → List (List Char)
  | [] => [[]]
  | x :: xs =>
    match splitOnChar c xs with
    | [] => [[]]
    | seg :: segs => if x = c then [] :: seg :: segs else (x :: seg) :: segs

/-- `strings.Split(s, "/")` as a list of strings. -/
def goSplit (s : String) (c : Char) : List String :=
  (splitOnChar c s.data).map fun l => { data := l }

/-- The inner loop of `ParseLayerMetadata`:
`for alias, layer := range alias { if pathPart == alias { metadata.Layer = layer; continue } }`,
folded over the iteration order, starting from the current `Layer`. -/
def aliasScan (pathPart : String) (layer0 : Layer) (aliases : AliasTable) : Layer :=
  aliases.foldl (fun acc e => if pathPart = e.1 then e.2 else acc) layer0

/-- The outer loop of `ParseLayerMetadata`, walking the path segments from
the last to the first (the argument list is the reversed segment list):
once a `Layer` is known, the current segment becomes the `Module` and the
loop breaks. -/
def parseWalk (aliases : AliasTable) : List String → LayerMetadata → LayerMetadata
  | [], m => m
  | p :: rest, m =>
    if m.Layer ≠ "" then { m with Module := p }
    else parseWalk aliases rest { m with Layer := aliasScan p m.Layer aliases }

/-- `ParseLayerMetadata` from the source: split the path on `/`, walk the
segments from last to first. -/
def ParseLayerMetadata (path : String) (aliases : AliasTable) : LayerMetadata :=
  parseWalk aliases (goSplit path (Char.ofNat 47)).reverse { Module := "", Layer := "" }

example : ParseLayerMetadata "app/domain/x" [("domain", LayerDomain)] =
    { Module := "app", Layer := "domain" } := by decide

example : ParseLayerMetadata "domain" [("domain", LayerDomain)] =
    { Module := "", Layer := "domain" } := by decide

example : ParseLayerMetadata "foo/bar" [("domain", LayerDomain)] =
    { Module := "", Layer := "" } := by decide

/-- Go `strings.Contains(s, sub)`, on the character lists. -/
def goContains (s sub : String) : Bool :=
  decide (sub.data <:+: s.data)

/-- Go `strings.HasSuffix(s, suf)`, on the character lists. -/
def goHasSuffix (s suf : String) : Bool :=
  decide (suf.data <:+ s.data)

/-- Go `strings.TrimSuffix(s, "\"")`: drop one trailing quote when present. -/
def trimQuoteEnd (s : String) : String :=
  if (Char.ofNat 34 :: []) <:+ s.data then { data := s.data.dropLast } else s

/-- Go `strings.TrimPrefix(s, "\"")`: drop one leading quote when present. -/
def trimQuoteStart (s : String) : String :=
  match s.data with
  | [] => s
  | c :: rest => if c = Char.ofNat 34 then { data := rest } else s

/-- The two trims `validateImport` applies to `imp.Path.Value` (the
raw quoted path literal). -/
def trimQuotes (s : String) : String :=
  trimQuoteStart (trimQuoteEnd s)

/-- A `ValidationError`, carrying the data the source formats into the
error message. -/
inductive ValidationError where
  | hierarchy (importLayer : Layer) (importPath : String)
      (importerLayer : Layer) (path : String)
  | crossModule (importLayer : Layer) (importPath : String)
      (importerLayer : Layer) (path : String)
      (importModule importerModule : String)
deriving DecidableEq, Repr

/-- `Validator` from the source: the classification cache
`filesMetadata map[string]LayerMetadata` (as an association list) and the
alias table. -/
structure Validator where
  filesMetadata : List (String × LayerMetadata)
  aliases : AliasTable

/-- `NewValidator`: empty cache. -/
def NewValidator (aliases : AliasTable) : Validator :=
  { filesMetadata := [], aliases := aliases }

/-- Go map lookup `v.filesMetadata[path]` on the association list. -/
def lookupCache : List (String × LayerMetadata) → String → Option LayerMetadata
  | [], _ => none
  | (k, m) :: rest, p => if p = k then some m else lookupCache rest p

/-- `fileMetadata` from the source: consult the cache, otherwise compute
`ParseLayerMetadata` and store it.  Returns the metadata and the updated
validator (the Go method mutates the receiver). -/
def fileMetadata (v : Validator) (path : String) : LayerMetadata × Validator :=
  match lookupCache v.filesMetadata path with
  | some metadata => (metadata, v)
  | none =>
    let m := ParseLayerMetadata path v.aliases
    (m, { v with filesMetadata := (path, m) :: v.filesMetadata })

/-- `validateImport` from the source: trim the quotes off the raw import
path literal, classify it through the cache, then decide.  Same module:
violation iff the imported layer sits strictly higher in
`layersHierarchy`.  Different module and non-empty imported layer:
violation unless the import goes from the interfaces layer into the
infrastructure layer. -/
def validateImport (v : Validator) (impPathValue : String)
    (importerMeta : LayerMetadata) (path : String) :
    List ValidationError × Validator :=
  let importPath := trimQuotes impPathValue
  let r := fileMetadata v importPath
  let importMeta := r.1
  let v' := r.2
  if importMeta.Module = importerMeta.Module then
    if layersHierarchy importMeta.Layer > layersHierarchy importerMeta.Layer then
      ([.hierarchy importMeta.Layer importPath importerMeta.Layer path], v')
    else ([], v')
  else if importMeta.Layer ≠ "" then
    if importMeta.Layer ≠ LayerInterfaces ∨ importerMeta.Layer ≠ LayerInfrastructure then
      ([.crossModule importMeta.Layer importPath importerMeta.Layer path
          importMeta.Module importerMeta.Module], v')
    else ([], v')
  else ([], v')

/-- One entry seen by the `filepath.Walk` callback: its path, whether it
is a directory, and the outcome of `parser.ParseFile` in `ImportsOnly`
mode — `none` when the file cannot be parsed for its import list, `some`
with the raw `imp.Path.Value` strings (quotes included) otherwise. -/
structure WalkEntry where
  path : String
  isDir : Bool
  imports : Option (List String)

/-- The `ImportsLoop` of `Validate`: an import whose raw path literal
contains any ignored-package substring is skipped before classification;
the rest go through `validateImport`, errors accumulating in order. -/
def processImports (ignoredPackages : List String)
    (importerMeta : LayerMetadata) (path : String) :
    List String → Validator → List ValidationError × Validator
  | [], v => ([], v)
  | imp :: rest, v =>
    if ignoredPackages.any fun ip => goContains imp ip then
      processImports ignoredPackages importerMeta path rest v
    else
      let r := validateImport v imp importerMeta path
      let r' := processImports ignoredPackages importerMeta path rest r.2
      (r.1 ++ r'.1, r'.2)

/-- The body of the `filepath.Walk` callback in `Validate`: skip
directories, non-Go files, optionally tests, vendored paths and hidden
paths; `panic` (here: `Except.error`) when the file cannot be parsed;
skip the file when its own metadata has an empty layer or module;
otherwise check its imports. -/
def processEntry (ignoreTests : Bool) (ignoredPackages : List String)
    (e : WalkEntry) (v : Validator) :
    Except Unit (List ValidationError × Validator) :=
  if e.isDir then .ok ([], v)
  else if ¬ goHasSuffix e.path ".go" then .ok ([], v)
  else if ignoreTests ∧ goHasSuffix e.path "_test.go" then .ok ([], v)
  else if goContains e.path "/vendor/" then .ok ([], v)
  else if goContains e.path "/." then .ok ([], v)
  else
    match e.imports with
    | none => .error ()
    | some imps =>
      let r := fileMetadata v e.path
      let importerMeta := r.1
      let v' := r.2
      if importerMeta.Layer = "" ∨ importerMeta.Module = "" then .ok ([], v')
      else .ok (processImports ignoredPackages importerMeta e.path imps v')

/-- The walk over all entries, threading the validator and accumulating
errors; a parse failure aborts the whole walk. -/
def validateLoop (ignoreTests : Bool) (ignoredPackages : List String) :
    List WalkEntry → Validator → List ValidationError →
    Except Unit (List ValidationError × Validator)
  | [], v, acc => .ok (acc, v)
  | e :: rest, v, acc =>
    match processEntry ignoreTests ignoredPackages e v with
    | .error u => .error u
    | .ok (errs, v') => validateLoop ignoreTests ignoredPackages rest v' (acc ++ errs)

/-- `Validate` from the source, over the list of entries the walk visits:
returns `(len(errors) == 0, errors)`, or an error when the walk aborted. -/
def Validate (v : Validator) (ignoreTests : Bool)
    (ignoredPackages : List String) (entries : List WalkEntry) :
    Except Unit (Bool × List ValidationError) :=
  match validateLoop ignoreTests ignoredPackages entries v [] with
  | .error u => .error u
  | .ok (errs, _) => .ok (errs.isEmpty, errs)

/-- The classification cache is coherent: every cached entry is exactly
what `ParseLayerMetadata` computes for its key.  `NewValidator` starts
with the empty cache, and every operation of the validator preserves
this, so every reachable cache satisfies it. -/
def CacheWF (v : Validator) : Prop :=
  ∀ p m, (p, m) ∈ v.filesMetadata → m = ParseLayerMetadata p v.aliases

/-- First-match lookup in the alias table; with `NodupKeys` this is the
unique association of the key, the denotation of the Go map. -/
def aliasLookup : AliasTable → String → Option Layer
  | [], _ => none
  | (k, l) :: rest, p => if p = k then some l else aliasLookup rest p

/-- Modelled from the spec's words (the normative description of
`ParseLayerMetadata`): walk the segments from the last to the first; the
first segment equal to an alias key sets the `Layer` to that key's layer,
the next segment toward the start of the path becomes the `Module` and
the walk stops; no match leaves both empty; a layer found at the first
path component leaves the `Module` empty.  The argument list is the
reversed segment list. -/
def specWalk (aliases : AliasTable) : List String → LayerMetadata
  | [] => { Module := "", Layer := "" }
  | p :: rest =>
    match aliasLookup aliases p with
    | some l =>
      match rest with
      | [] => { Module := "", Layer := l }
      | q :: _ => { Module := q, Layer := l }
    | none => specWalk aliases rest

/-- Modelled from the spec's words: the classification contract of claim
C3, to be compared with the source's `ParseLayerMetadata`. -/
def specParseLayerMetadata (path : String) (aliases : AliasTable) : LayerMetadata :=
  specWalk aliases (goSplit path (Char.ofNat 47)).reverse

/-! ### Lemmas about the alias table -/

theorem aliasLookup_cons (k : String) (l : Layer) (rest : AliasTable) (p : String) :
    aliasLookup ((k, l) :: rest) p = if p = k then some l else aliasLookup rest p := rfl

theorem aliasScan_cons (p : String) (l0 : Layer) (k : String) (l : Layer)
    (rest : AliasTable) :
    aliasScan p l0 ((k, l) :: rest) = aliasScan p (if p = k then l else l0) rest := rfl

theorem nodupKeys_cons {k : String} {l : Layer} {rest : AliasTable}
    (hnd : NodupKeys ((k, l) :: rest)) :
    (∀ e ∈ rest, e.1 ≠ k) ∧ NodupKeys rest := by
  rw [NodupKeys, List.map_cons, List.nodup_cons] at hnd
  refine ⟨?_, hnd.2⟩
  intro e he heq
  have hm : e.1 ∈ rest.map Prod.fst := List.mem_map_of_mem Prod.fst he
  rw [heq] at hm
  exact hnd.1 hm

theorem mem_of_aliasLookup_eq_some {aliases : AliasTable} {p : String} {l : Layer}
    (h : aliasLookup aliases p = some l) : (p, l) ∈ aliases := by
  induction aliases with
  | nil => exact Option.noConfusion h
  | cons e rest ih =>
    obtain ⟨k, l'⟩ := e
    rw [aliasLookup_cons] at h
    by_cases hpk : p = k
    · rw [if_pos hpk] at h
      have hl : l' = l := Option.some.inj h
      exact List.mem_cons.mpr (Or.inl (by rw [hpk, hl]))
    · rw [if_neg hpk] at h
      exact List.mem_cons_of_mem _ (ih h)

theorem aliasLookup_isSome_of_mem {aliases : AliasTable} {p : String} {l : Layer}
    (h : (p, l) ∈ aliases) : ∃ l', aliasLookup aliases p = some l' := by
  induction aliases with
  | nil => exact absurd h (List.not_mem_nil _)
  | cons e rest ih =>
    obtain ⟨k, l'⟩ := e
    rw [aliasLookup_cons]
    by_cases hpk : p = k
    · exact ⟨l', if_pos hpk⟩
    · rw [if_neg hpk]
      rcases List.mem_cons.mp h with heq | hmem
      · exact absurd (congrArg Prod.fst heq) hpk
      · exact ih hmem

theorem aliasLookup_eq_some_of_mem {aliases : AliasTable} {p : String} {l : Layer}
    (hnd : NodupKeys aliases) (h : (p, l) ∈ aliases) :
    aliasLookup aliases p = some l := by
  induction aliases with
  | nil => exact absurd h (List.not_mem_nil _)
  | cons e rest ih =>
    obtain ⟨k, l'⟩ := e
    obtain ⟨hkeys, hnd'⟩ := nodupKeys_cons hnd
    rw [aliasLookup_cons]
    by_cases hpk : p = k
    · rw [if_pos hpk]
      rcases List.mem_cons.mp h with heq | hmem
      · injection heq with h1 h2
        rw [h2]
      · exact absurd (hpk ▸ congrArg Prod.fst rfl : (p, l).1 = p)
          (fun _ => hkeys (p, l) hmem (by rw [hpk]))
    · rw [if_neg hpk]
      rcases List.mem_cons.mp h with heq | hmem
      · exact absurd (congrArg Prod.fst heq) hpk
      · exact ih hnd' hmem

theorem nodupKeys_of_perm {a1 a2 : AliasTable} (hnd : NodupKeys a1)
    (hp : a1.Perm a2) : NodupKeys a2 :=
  (hp.map Prod.fst).nodup_iff.mp hnd

theorem aliasLookup_perm {a1 a2 : AliasTable} (hnd : NodupKeys a1)
    (hp : a1.Perm a2) (p : String) : aliasLookup a1 p = aliasLookup a2 p := by
  cases h1 : aliasLookup a1 p with
  | some l =>
    exact (aliasLookup_eq_some_of_mem (nodupKeys_of_perm hnd hp)
      (hp.mem_iff.mp (mem_of_aliasLookup_eq_some h1))).symm
  | none =>
    cases h2 : aliasLookup a2 p with
    | some l =>
      obtain ⟨l', hl'⟩ := aliasLookup_isSome_of_mem
        (hp.mem_iff.mpr (mem_of_aliasLookup_eq_some h2))
      rw [h1] at hl'
      exact Option.noConfusion hl'
    | none => rfl

theorem aliasScan_of_no_key {aliases : AliasTable} {p : String} (l0 : Layer)
    (h : ∀ e ∈ aliases, e.1 ≠ p) : aliasScan p l0 aliases = l0 := by
  induction aliases generalizing l0 with
  | nil => rfl
  | cons e rest ih =>
    obtain ⟨k, l⟩ := e
    have hk : k ≠ p := h (k, l) (List.mem_cons_self _ _)
    rw [aliasScan_cons, if_neg (fun hpk => hk hpk.symm)]
    exact ih l0 fun e he => h e (List.mem_cons_of_mem _ he)

theorem aliasScan_eq_aliasLookup {aliases : AliasTable} (hnd : NodupKeys aliases)
    (p : String) (l0 : Layer) :
    aliasScan p l0 aliases = (aliasLookup aliases p).getD l0 := by
  induction aliases generalizing l0 with
  | nil => rfl
  | cons e rest ih =>
    obtain ⟨k, l⟩ := e
    obtain ⟨hkeys, hnd'⟩ := nodupKeys_cons hnd
    rw [aliasScan_cons, aliasLookup_cons]
    by_cases hpk : p = k
    · rw [if_pos hpk, if_pos hpk, Option.getD_some]
      exact aliasScan_of_no_key l fun e he heq => hkeys e he (heq.trans hpk)
    · rw [if_neg hpk, if_neg hpk]
      exact ih hnd' l0

/-! ### Lemmas about the classification walk -/

theorem parseWalk_nil (aliases : AliasTable) (m : LayerMetadata) :
    parseWalk aliases [] m = m := rfl

theorem parseWalk_cons (aliases : AliasTable) (p : String) (rest : List String)
    (m : LayerMetadata) :
    parseWalk aliases (p :: rest) m =
      if m.Layer ≠ "" then { m with Module := p }
      else parseWalk aliases rest { m with Layer := aliasScan p m.Layer aliases } := rfl

theorem parseWalk_module_empty (aliases : AliasTable) :
    ∀ (l : List String) (m : LayerMetadata), (m.Layer = "" → m.Module = "") →
      (parseWalk aliases l m).Layer = "" → (parseWalk aliases l m).Module = "" := by
  intro l
  induction l with
  | nil => intro m hm; exact hm
  | cons p rest ih =>
    intro m hm
    rw [parseWalk_cons]
    by_cases hl : m.Layer ≠ ""
    · rw [if_pos hl]
      intro habs
      exact absurd habs hl
    · rw [if_neg hl]
      have hm0 : m.Layer = "" := not_not.mp hl
      exact ih _ (fun _ => hm hm0)

theorem parseWalk_perm {a1 a2 : AliasTable} (hnd : NodupKeys a1)
    (hp : a1.Perm a2) :
    ∀ (l : List String) (m : LayerMetadata), parseWalk a1 l m = parseWalk a2 l m := by
  intro l
  induction l with
  | nil => intro m; rfl
  | cons p rest ih =>
    intro m
    rw [parseWalk_cons, parseWalk_cons]
    by_cases hl : m.Layer ≠ ""
    · rw [if_pos hl, if_pos hl]
    · rw [if_neg hl, if_neg hl]
      have hscan : aliasScan p m.Layer a1 = aliasScan p m.Layer a2 := by
        rw [aliasScan_eq_aliasLookup hnd, aliasScan_eq_aliasLookup
          (nodupKeys_of_perm hnd hp), aliasLookup_perm hnd hp]
      rw [hscan]
      exact ih _

theorem specWalk_nil (aliases : AliasTable) :
    specWalk aliases [] = { Module := "", Layer := "" } := rfl

theorem specWalk_cons (aliases : AliasTable) (p : String) (rest : List String) :
    specWalk aliases (p :: rest) =
      match aliasLookup aliases p with
      | some l =>
        match rest with
        | [] => { Module := "", Layer := l }
        | q :: _ => { Module := q, Layer := l }
      | none => specWalk aliases rest := rfl

theorem parseWalk_eq_specWalk {aliases : AliasTable} (hnd : NodupKeys aliases)
    (hvals : ∀ e ∈ aliases, e.2 ≠ "") :
    ∀ l : List String, parseWalk aliases l { Module := "", Layer := "" } =
      specWalk aliases l := by
  intro l
  induction l with
  | nil => rfl
  | cons p rest ih =>
    rw [parseWalk_cons, specWalk_cons]
    rw [if_neg (by simp)]
    have hscan : aliasScan p (LayerMetadata.Layer { Module := "", Layer := "" }) aliases =
        (aliasLookup aliases p).getD "" := aliasScan_eq_aliasLookup hnd p _
    cases h : aliasLookup aliases p with
    | some lay =>
      have hlay : lay ≠ "" := hvals (p, lay) (mem_of_aliasLookup_eq_some h)
      rw [h, Option.getD_some] at hscan
      rw [hscan]
      cases rest with
      | nil => rw [parseWalk_nil]
      | cons q rest' =>
        rw [parseWalk_cons, if_pos (by simpa using hlay)]
    | none =>
      rw [h, Option.getD_none] at hscan
      rw [hscan]
      exact ih

/-! ### Lemmas about the classification cache -/

theorem lookupCache_mem {cache : List (String × LayerMetadata)} {p : String}
    {m : LayerMetadata} (h : lookupCache cache p = some m) : (p, m) ∈ cache := by
  induction cache with
  | nil => exact Option.noConfusion h
  | cons e rest ih =>
    obtain ⟨k, m'⟩ := e
    by_cases hpk : p = k
    · have : (if p = k then some m' else lookupCache rest p) = some m := h
      rw [if_pos hpk] at this
      have hm : m' = m := Option.some.inj this
      exact List.mem_cons.mpr (Or.inl (by rw [hpk, hm]))
    · have : (if p = k then some m' else lookupCache rest p) = some m := h
      rw [if_neg hpk] at this
      exact List.mem_cons_of_mem _ (ih this)

theorem fileMetadata_of_lookup_some {v : Validator} {p : String} {m : LayerMetadata}
    (h : lookupCache v.filesMetadata p = some m) : fileMetadata v p = (m, v) := by
  unfold fileMetadata
  rw [h]

theorem fileMetadata_fst {v : Validator} (p : String) (hwf : CacheWF v) :
    (fileMetadata v p).1 = ParseLayerMetadata p v.aliases := by
  unfold fileMetadata
  cases h : lookupCache v.filesMetadata p with
  | some m => exact hwf p m (lookupCache_mem h)
  | none => rfl

theorem fileMetadata_aliases (v : Validator) (p : String) :
    (fileMetadata v p).2.aliases = v.aliases := by
  unfold fileMetadata
  cases h : lookupCache v.filesMetadata p <;> rfl

theorem fileMetadata_wf {v : Validator} (p : String) (hwf : CacheWF v) :
    CacheWF (fileMetadata v p).2 := by
  unfold fileMetadata
  cases h : lookupCache v.filesMetadata p with
  | some m => exact hwf
  | none =>
    intro q m hm
    rcases List.mem_cons.mp hm with heq | hmem
    · injection heq with h1 h2
      rw [← h1] at h2
      exact h2
    · exact hwf q m hmem

theorem fileMetadata_self (v : Validator) (p : String) :
    lookupCache (fileMetadata v p).2.filesMetadata p = some (fileMetadata v p).1 := by
  unfold fileMetadata
  cases h : lookupCache v.filesMetadata p with
  | some m => exact h
  | none =>
    show (if p = p then _ else _) = _
    rw [if_pos rfl]

/-! ### The claims -/

/-- C10: `ParseLayerMetadata` never returns a non-empty `Module` with an
empty `Layer`; consequently a target classified with an empty `Layer` has
an empty `Module` and cannot equal any non-empty importer `Module`. -/
theorem parse_empty_layer_empty_module (path : String) (aliases : AliasTable)
    (h : (ParseLayerMetadata path aliases).Layer = "") :
    (ParseLayerMetadata path aliases).Module = "" ∧
      ∀ M : String, M ≠ "" → (ParseLayerMetadata path aliases).Module ≠ M := by
  have hmod : (ParseLayerMetadata path aliases).Module = "" :=
    parseWalk_module_empty aliases _ _ (fun _ => rfl) h
  exact ⟨hmod, fun M hM hcontr => hM (hcontr ▸ hmod)⟩

/-- Witness for C10 at the path `"x"` and the empty alias table. -/
theorem parse_empty_layer_empty_module_witness :
    (ParseLayerMetadata "x" []).Module = "" ∧
      ∀ M : String, M ≠ "" → (ParseLayerMetadata "x" []).Module ≠ M :=
  parse_empty_layer_empty_module "x" [] (by decide)

/-- C1: same non-empty module on both sides: `validateImport` reports a
violation exactly when the imported layer's `layersHierarchy` weight
(domain 1, application 2, interfaces 3, infrastructure 4) strictly
exceeds the importer's; equal or lower order is never a violation. -/
theorem validateImport_sameModule_iff (v : Validator) (raw path : String)
    (importerMeta : LayerMetadata) (hwf : CacheWF v)
    (hmod : (ParseLayerMetadata (trimQuotes raw) v.aliases).Module = importerMeta.Module)
    (_hne : importerMeta.Module ≠ "") :
    (validateImport v raw importerMeta path).1 ≠ [] ↔
      layersHierarchy (ParseLayerMetadata (trimQuotes raw) v.aliases).Layer >
        layersHierarchy importerMeta.Layer := by
  have h1 : (fileMetadata v (trimQuotes raw)).1 =
      ParseLayerMetadata (trimQuotes raw) v.aliases := fileMetadata_fst _ hwf
  simp only [validateImport]
  rw [h1, if_pos hmod]
  by_cases hgt : layersHierarchy (ParseLayerMetadata (trimQuotes raw) v.aliases).Layer >
      layersHierarchy importerMeta.Layer
  · rw [if_pos hgt]
    simpa using hgt
  · rw [if_neg hgt]
    simpa using hgt

/-- Witness for C1: intra-module import of the domain layer into the
application layer is legal, and the hypotheses hold at this input. -/
theorem validateImport_sameModule_iff_witness :
    (validateImport (NewValidator [("domain", "domain"), ("application", "application")])
        "\"app/domain/x\"" { Module := "app", Layer := "application" } "app/application/y.go").1 ≠ [] ↔
      layersHierarchy (ParseLayerMetadata
          (trimQuotes "\"app/domain/x\"")
          (NewValidator [("domain", "domain"), ("application", "application")]).aliases).Layer >
        layersHierarchy ({ Module := "app", Layer := "application" } : LayerMetadata).Layer :=
  validateImport_sameModule_iff _ _ "app/application/y.go" _
    (fun _ _ hm => absurd hm (List.not_mem_nil _)) (by decide) (by decide)

/-- C2: modules differ and the imported layer is non-empty:
`validateImport` reports a violation exactly when the import is not an
interfaces-layer target imported by an infrastructure-layer file. -/
theorem validateImport_crossModule_iff (v : Validator) (raw path : String)
    (importerMeta : LayerMetadata) (hwf : CacheWF v)
    (hmod : (ParseLayerMetadata (trimQuotes raw) v.aliases).Module ≠ importerMeta.Module)
    (hlay : (ParseLayerMetadata (trimQuotes raw) v.aliases).Layer ≠ "") :
    (validateImport v raw importerMeta path).1 ≠ [] ↔
      ¬((ParseLayerMetadata (trimQuotes raw) v.aliases).Layer = LayerInterfaces ∧
        importerMeta.Layer = LayerInfrastructure) := by
  have h1 : (fileMetadata v (trimQuotes raw)).1 =
      ParseLayerMetadata (trimQuotes raw) v.aliases := fileMetadata_fst _ hwf
  simp only [validateImport]
  rw [h1, if_neg hmod, if_pos hlay]
  by_cases hexc : (ParseLayerMetadata (trimQuotes raw) v.aliases).Layer ≠ LayerInterfaces ∨
      importerMeta.Layer ≠ LayerInfrastructure
  · rw [if_pos hexc]
    refine ⟨fun _ hc => ?_, fun _ => ?_⟩
    · rcases hexc with h | h
      · exact h hc.1
      · exact h hc.2
    · exact List.cons_ne_nil _ _
  · rw [if_neg hexc]
    push_neg at hexc
    simp [hexc.1, hexc.2]

/-- Witness for C2: a same-layer cross-module import (domain to domain)
is a violation. -/
theorem validateImport_crossModule_iff_witness :
    (validateImport (NewValidator [("domain", "domain")])
        "\"other/domain/x\"" { Module := "app", Layer := "domain" } "app/domain/y.go").1 ≠ [] ↔
      ¬((ParseLayerMetadata (trimQuotes "\"other/domain/x\"")
          (NewValidator [("domain", "domain")]).aliases).Layer = LayerInterfaces ∧
        ({ Module := "app", Layer := "domain" } : LayerMetadata).Layer = LayerInfrastructure) :=
  validateImport_crossModule_iff _ _ "app/domain/y.go" _
    (fun _ _ hm => absurd hm (List.not_mem_nil _)) (by decide) (by decide)

/-- C5: an import whose classification has an empty layer never produces
a violation, whatever the importer's metadata. -/
theorem validateImport_unclassified_no_violation (v : Validator) (raw path : String)
    (importerMeta : LayerMetadata) (hwf : CacheWF v)
    (hlay : (ParseLayerMetadata (trimQuotes raw) v.aliases).Layer = "") :
    (validateImport v raw importerMeta path).1 = [] := by
  have h1 : (fileMetadata v (trimQuotes raw)).1 =
      ParseLayerMetadata (trimQuotes raw) v.aliases := fileMetadata_fst _ hwf
  simp only [validateImport]
  rw [h1]
  by_cases hmod : (ParseLayerMetadata (trimQuotes raw) v.aliases).Module = importerMeta.Module
  · rw [if_pos hmod]
    have h0 : layersHierarchy (ParseLayerMetadata (trimQuotes raw) v.aliases).Layer = 0 := by
      rw [hlay]
      rfl
    rw [if_neg]
    rw [h0]
    exact Nat.not_lt_zero _
  · rw [if_neg hmod, if_neg]
    intro hcontr
    exact hcontr hlay

/-- Witness for C5: an unclassifiable standard-library import such as
`"fmt"` produces no violation even inside a classified importer. -/
theorem validateImport_unclassified_no_violation_witness :
    (validateImport (NewValidator [("domain", "domain")])
        "\"fmt\"" { Module := "app", Layer := "domain" } "app/domain/y.go").1 = [] :=
  validateImport_unclassified_no_violation _ _ "app/domain/y.go" _
    (fun _ _ hm => absurd hm (List.not_mem_nil _)) (by decide)

/-- C7: classification does not depend on the iteration order of the
alias map: permuting the (duplicate-free) alias table leaves
`ParseLayerMetadata` unchanged; together with purity this gives the
deterministic, idempotent classification contract. -/
theorem parse_alias_order_irrelevant (path : String) {a1 a2 : AliasTable}
    (hnd : NodupKeys a1) (hp : a1.Perm a2) :
    ParseLayerMetadata path a1 = ParseLayerMetadata path a2 :=
  parseWalk_perm hnd hp _ _

/-- Witness for C7 on a two-entry table and its transposition. -/
theorem parse_alias_order_irrelevant_witness :
    ParseLayerMetadata "app/domain/x"
        [("domain", "domain"), ("interfaces", "interfaces")] =
      ParseLayerMetadata "app/domain/x"
        [("interfaces", "interfaces"), ("domain", "domain")] :=
  parse_alias_order_irrelevant "app/domain/x" (by unfold NodupKeys; decide) (List.Perm.swap _ _ _)

/-- Counterexample to C3 as stated: with the alias table mapping the key
`"a"` to the empty layer name, the segment `"a"` of `"m/a"` is equal to an
alias key, yet the source leaves both fields empty while the claimed walk
would stop and report `Module = "m"`. -/
theorem parse_eq_spec_counterexample :
    ParseLayerMetadata "m/a" [("a", "")] ≠
      specParseLayerMetadata "m/a" [("a", "")] := by decide

/-- C3 (amended): provided every alias maps to a non-empty layer name,
`ParseLayerMetadata` computes exactly the walk the spec describes:
segments are split on `/` and scanned from last to first, the first
segment equal to an alias key sets the layer, the next segment toward the
start becomes the module and the walk stops, no match leaves both fields
empty, and a layer found at the first path component leaves the module
empty. -/
theorem parse_eq_spec (path : String) (aliases : AliasTable)
    (hnd : NodupKeys aliases) (hvals : ∀ e ∈ aliases, e.2 ≠ "") :
    ParseLayerMetadata path aliases = specParseLayerMetadata path aliases :=
  parseWalk_eq_specWalk hnd hvals _

/-- Witness for C3 on a two-alias table and a three-segment path. -/
theorem parse_eq_spec_witness :
    ParseLayerMetadata "svc/interfaces/h.go"
        [("domain", "domain"), ("interfaces", "interfaces")] =
      specParseLayerMetadata "svc/interfaces/h.go"
        [("domain", "domain"), ("interfaces", "interfaces")] :=
  parse_eq_spec "svc/interfaces/h.go" _ (by unfold NodupKeys; decide) (by decide)

/-- C8: with a coherent cache (the invariant of every reachable
validator, starting from `NewValidator`'s empty cache), `fileMetadata`
returns exactly `ParseLayerMetadata`, and a second lookup of the same
path returns the identical cached value with the cache unchanged. -/
theorem fileMetadata_refines_parse (v : Validator) (p : String) (hwf : CacheWF v) :
    (fileMetadata v p).1 = ParseLayerMetadata p v.aliases ∧
      fileMetadata (fileMetadata v p).2 p = ((fileMetadata v p).1, (fileMetadata v p).2) :=
  ⟨fileMetadata_fst p hwf, fileMetadata_of_lookup_some (fileMetadata_self v p)⟩

/-- Witness for C8 starting from the empty cache. -/
theorem fileMetadata_refines_parse_witness :
    (fileMetadata (NewValidator [("domain", "domain")]) "app/domain/x").1 =
        ParseLayerMetadata "app/domain/x" (NewValidator [("domain", "domain")]).aliases ∧
      fileMetadata (fileMetadata (NewValidator [("domain", "domain")]) "app/domain/x").2
          "app/domain/x" =
        ((fileMetadata (NewValidator [("domain", "domain")]) "app/domain/x").1,
          (fileMetadata (NewValidator [("domain", "domain")]) "app/domain/x").2) :=
  fileMetadata_refines_parse _ _ (fun _ _ hm => absurd hm (List.not_mem_nil _))

/-- C9: an import whose raw path literal contains an ignored substring is
skipped before classification: the imports loop behaves as if the import
were absent, leaving both the violation list and the cache untouched. -/
theorem processImports_skips_ignored (ignoredPackages : List String)
    (importerMeta : LayerMetadata) (path imp : String) (rest : List String)
    (v : Validator) (h : ∃ ig ∈ ignoredPackages, goContains imp ig = true) :
    processImports ignoredPackages importerMeta path (imp :: rest) v =
      processImports ignoredPackages importerMeta path rest v := by
  obtain ⟨ig, hig, hc⟩ := h
  simp only [processImports]
  rw [if_pos]
  exact List.any_eq_true.mpr ⟨ig, hig, hc⟩

/-- Witness for C9: a vendored import that would otherwise be an illegal
cross-module import is exempted. -/
theorem processImports_skips_ignored_witness :
    processImports ["github.com"] { Module := "app", Layer := "domain" }
        "app/domain/y.go" ["\"github.com/other/domain/x\""] (NewValidator [("domain", "domain")]) =
      processImports ["github.com"] { Module := "app", Layer := "domain" }
        "app/domain/y.go" [] (NewValidator [("domain", "domain")]) :=
  processImports_skips_ignored _ _ _ _ _ _ ⟨"github.com", by decide, by decide⟩

/-- C6: a discovered, parseable Go file whose own classification has an
empty layer or module is skipped entirely: the run continues on the
remaining entries (only the cache advances) and the file contributes no
violation at all. -/
theorem validate_skips_unclassifiable_importer (v : Validator) (it : Bool)
    (ip : List String) (e : WalkEntry) (rest : List WalkEntry) (imps : List String)
    (hwf : CacheWF v)
    (hdir : e.isDir = false)
    (hgo : goHasSuffix e.path ".go" = true)
    (htest : ¬(it = true ∧ goHasSuffix e.path "_test.go" = true))
    (hven : goContains e.path "/vendor/" = false)
    (hhid : goContains e.path "/." = false)
    (himps : e.imports = some imps)
    (hmeta : (ParseLayerMetadata e.path v.aliases).Layer = "" ∨
      (ParseLayerMetadata e.path v.aliases).Module = "") :
    Validate v it ip (e :: rest) = Validate (fileMetadata v e.path).2 it ip rest := by
  have hpe : processEntry it ip e v = .ok ([], (fileMetadata v e.path).2) := by
    simp only [processEntry]
    rw [if_neg (by rw [hdir]; exact Bool.false_ne_true)]
    rw [if_neg (fun hc => hc hgo)]
    rw [if_neg htest]
    rw [if_neg (by rw [hven]; exact Bool.false_ne_true)]
    rw [if_neg (by rw [hhid]; exact Bool.false_ne_true)]
    rw [himps]
    rw [fileMetadata_fst e.path hwf]
    simp only [if_pos hmeta]
  simp only [Validate, validateLoop]
  rw [hpe]
  rfl

/-- Witness for C6: a Go file outside every alias directory would carry
an illegal import, yet contributes nothing. -/
theorem validate_skips_unclassifiable_importer_witness :
    Validate (NewValidator [("domain", "domain")]) false []
        [{ path := "scripts/tool.go", isDir := false,
           imports := some ["\"other/domain/x\""] }] =
      Validate (fileMetadata (NewValidator [("domain", "domain")]) "scripts/tool.go").2
        false [] [] :=
  validate_skips_unclassifiable_importer _ false [] _ [] _
    (fun _ _ hm => absurd hm (List.not_mem_nil _))
    rfl (by decide) (by decide) (by decide) (by decide) rfl (Or.inl (by decide))

/-- C4: if any visited entry is a non-directory `.go` file that is not
filtered out and cannot be parsed for its import list, the whole run
aborts with the fatal error and no violation list is produced, wherever
the entry sits in the walk order. -/
theorem validate_aborts_on_parse_failure (v : Validator) (it : Bool)
    (ip : List String) (entries : List WalkEntry) (e : WalkEntry)
    (he : e ∈ entries)
    (hdir : e.isDir = false)
    (hgo : goHasSuffix e.path ".go" = true)
    (htest : ¬(it = true ∧ goHasSuffix e.path "_test.go" = true))
    (hven : goContains e.path "/vendor/" = false)
    (hhid : goContains e.path "/." = false)
    (himps : e.imports = none) :
    Validate v it ip entries = .error () := by
  have hpe : ∀ w : Validator, processEntry it ip e w = .error () := by
    intro w
    simp only [processEntry]
    rw [if_neg (by rw [hdir]; exact Bool.false_ne_true)]
    rw [if_neg (fun hc => hc hgo)]
    rw [if_neg htest]
    rw [if_neg (by rw [hven]; exact Bool.false_ne_true)]
    rw [if_neg (by rw [hhid]; exact Bool.false_ne_true)]
    rw [himps]
  have hloop : ∀ (es : List WalkEntry), e ∈ es → ∀ (w : Validator)
      (acc : List ValidationError), validateLoop it ip es w acc = .error () := by
    intro es
    induction es with
    | nil => intro hmem; exact absurd hmem (List.not_mem_nil _)
    | cons f fs ih =>
      intro hmem w acc
      rcases List.mem_cons.mp hmem with heq | hmem'
      · simp only [validateLoop]
        rw [← heq, hpe w]
      · simp only [validateLoop]
        cases hp : processEntry it ip f w with
        | error u => cases u; rfl
        | ok r =>
          obtain ⟨errs, w'⟩ := r
          exact ih hmem' w' (acc ++ errs)
  simp only [Validate]
  rw [hloop entries he v []]

/-- Witness for C4: one unparseable Go file aborts the run. -/
theorem validate_aborts_on_parse_failure_witness :
    Validate (NewValidator [("domain", "domain")]) false []
        [{ path := "app/domain/bad.go", isDir := false, imports := none }] =
      .error () :=
  validate_aborts_on_parse_failure _ false [] _
    { path := "app/domain/bad.go", isDir := false, imports := none }
    (List.mem_singleton.mpr rfl) rfl (by decide) (by decide) (by decide) (by decide) rfl

end Cleanarch
